import Mathlib

/-!
Verification development for the MatchZoo `DataPack` module
(`matchzoo/data_pack/data_pack.py`).

The pandas tables are embedded shallowly: a `DFrame` is a list of labelled
rows (the label models the pandas index entry) together with a list of
column names and the name of the index.  Cell contents are modelled by the
`Value` type (strings and integers suffice for the data the module moves
around).  Label-based selection (`.loc`), column extraction, `reset_index`,
index-aligned `join`, and the `DataPack` methods are translated from the
source; fallible pandas operations (key errors, missing columns) return
`Except`.
-/

/-- A cell value of a table: a string or an integer. -/
inductive Value where
  | str : String → Value
  | int : Int → Value
deriving DecidableEq, Repr

/-- A pandas data frame: an index name, column names, and rows, each row
carrying its index label and its cell values (one per column). -/
structure DFrame where
  idxName : String
  cols : List String
  rows : List (Value × List Value)
deriving DecidableEq, Repr

/-- Rows labelled `off, off+1, ...` — the shape of a pandas `RangeIndex`
starting at `off` (labels are stored as integer values). -/
def enumFromV (off : Nat) : List α → List (Value × α)
  | [] => []
  | a :: l => (Value.int off, a) :: enumFromV (off + 1) l

/-- `mapM` specialised to `Except String`, written by explicit recursion so
that it unfolds definitionally. -/
def mapME (f : α → Except String β) : List α → Except String (List β)
  | [] => .ok []
  | a :: l => do
    let b ← f a
    let bs ← mapME f l
    pure (b :: bs)

/-- First row carrying the given index label (`df.loc[lab]` for a unique
label). -/
def DFrame.locRow (t : DFrame) (lab : Value) : Option (List Value) :=
  (t.rows.find? (fun p => decide (p.1 = lab))).map Prod.snd

/-- `df.loc[labs]` for a list of labels: each label is looked up and the
matching rows are returned in the requested order; a missing label is a
key error. -/
def DFrame.loc (t : DFrame) (labs : List Value) : Except String DFrame := do
  let rows ← mapME (fun l =>
    match t.locRow l with
    | some r => .ok (l, r)
    | none => .error "KeyError") labs
  pure ⟨t.idxName, t.cols, rows⟩

/-- Position of the first column with the given name, if any. -/
def colIdx? : List String → String → Option Nat
  | [], _ => none
  | x :: xs, c => if x = c then some 0 else (colIdx? xs c).map (· + 1)

/-- `df[c]`: the column named `c` as a labelled series; a missing column
name is a key error. -/
def DFrame.getCol (t : DFrame) (c : String) : Except String (List (Value × Value)) :=
  match colIdx? t.cols c with
  | some i => .ok (t.rows.map (fun p => (p.1, p.2.getD i (Value.int 0))))
  | none => .error "KeyError"

/-- `series[labs]` for a list of labels: label-based lookup, result indexed
by the requested labels in order. -/
def seriesSel (s : List (Value × Value)) (labs : List Value) :
    Except String (List (Value × Value)) :=
  mapME (fun l =>
    match s.find? (fun p => decide (p.1 = l)) with
    | some p => .ok (l, p.2)
    | none => .error "KeyError") labs

/-- `df.reset_index(drop=True)`: discard labels and renumber from zero. -/
def DFrame.resetIndexDrop (t : DFrame) : DFrame :=
  ⟨t.idxName, t.cols, enumFromV 0 (t.rows.map Prod.snd)⟩

/-- `df.reset_index()`: move the index into a leading column named after
the index, and renumber from zero. -/
def DFrame.resetIndexKeep (t : DFrame) : DFrame :=
  ⟨"", t.idxName :: t.cols, enumFromV 0 (t.rows.map (fun p => p.1 :: p.2))⟩

/-- `a.join(b)`: left join on the index.  Every row of `a` is extended with
the cells of the row of `b` with the same label (unique labels; in this
module both operands always carry identical fresh range indexes, so the
lookup always hits). -/
def DFrame.join (a b : DFrame) : DFrame :=
  ⟨a.idxName, a.cols ++ b.cols,
    a.rows.map (fun p => (p.1, p.2 ++ (b.locRow p.1).getD []))⟩

/-- An argument acceptable to `DataPack.__getitem__` and to the frame
view's slicer: an integer, a slice, or an array of integer positions. -/
inductive PyIndex where
  | int : Int → PyIndex
  | slice : Option Int → Option Int → Option Int → PyIndex
  | list : List Int → PyIndex

/-- `slice(start, stop, step).indices(length)` expanded to the list
`range(*...)`, following CPython's clamping rules.  (A zero step raises in
Python; it is mapped to the empty list here and never used.) -/
def sliceIndices (start stop step : Option Int) (length : Nat) : List Int :=
  let st : Int := step.getD 1
  if st = 0 then [] else
  let lower : Int := if st > 0 then 0 else -1
  let upper : Int := if st > 0 then (length : Int) else (length : Int) - 1
  let s : Int := match start with
    | none => if st > 0 then lower else upper
    | some v => if v < 0 then max (v + length) lower else min v upper
  let e : Int := match stop with
    | none => if st > 0 then upper else lower
    | some v => if v < 0 then max (v + length) lower else min v upper
  let count : Nat := if st > 0 then (((e - s) + st - 1) / st).toNat
                     else (((s - e) - st - 1) / (-st)).toNat
  (List.range count).map (fun k => s + k * st)

/-- `_convert_to_list_index`: an integer becomes a one-element list, a
slice is expanded via `slice.indices(length)`, a list is passed through. -/
def convert_to_list_index (index : PyIndex) (length : Nat) : List Int :=
  match index with
  | .int i => [i]
  | .slice a b c => sliceIndices a b c length
  | .list l => l

/-- The MatchZoo `DataPack`: a relation table and the two entity tables. -/
structure DataPack where
  relation : DFrame
  left : DFrame
  right : DFrame
deriving DecidableEq, Repr

/-- `len(self)`: number of relation rows (`self._relation.shape[0]`). -/
def DataPack.len (d : DataPack) : Nat :=
  d.relation.rows.length

/-- `has_label`: whether a `label` column exists in the relation table. -/
def DataPack.has_label (d : DataPack) : Prop :=
  "label" ∈ d.relation.cols

instance (d : DataPack) : Decidable d.has_label := by
  unfold DataPack.has_label; infer_instance

/-- `pd.Series.unique`: the distinct values in first-occurrence order. -/
def uniqueFirst : List Value → List Value
  | [] => []
  | x :: xs => x :: uniqueFirst (xs.filter (fun y => decide (y ≠ x)))
termination_by l => l.length
decreasing_by
  simp only [List.length_cons]
  exact Nat.lt_succ_of_le (List.length_filter_le _ _)

/-- `DataPack.__getitem__`: select relation rows by position labels, reset
their index, and restrict the entity tables to the identifiers those rows
still reference (in first-occurrence order), copying everything. -/
def DataPack.getItem (d : DataPack) (index : PyIndex) : Except String DataPack := do
  let rel0 ← d.relation.loc ((convert_to_list_index index d.len).map Value.int)
  let colL ← rel0.resetIndexDrop.getCol "id_left"
  let left ← d.left.loc (uniqueFirst (colL.map Prod.snd))
  let colR ← rel0.resetIndexDrop.getCol "id_right"
  let right ← d.right.loc (uniqueFirst (colR.map Prod.snd))
  pure ⟨rel0.resetIndexDrop, left, right⟩

/-- `DataPack.copy`: a deep copy — with value semantics, a pack with the
same three tables. -/
def DataPack.copy (d : DataPack) : DataPack :=
  ⟨d.relation, d.left, d.right⟩

/-- The view returned by the `frame` property: it stores nothing but a
reference to the viewed pack. -/
structure DataPackFrameView where
  data_pack : DataPack

/-- The `frame` property: build a view of `self`. -/
def DataPack.frame (d : DataPack) : DataPackFrameView :=
  ⟨d⟩

/-- The relation-column join loop of `DataPackFrameView.__getitem__`: every
relation column other than the two identifier columns is selected at the
requested labels, re-indexed from zero, and joined onto the accumulated
table. -/
def joinRelCols (d : DataPack) (labs : List Value) :
    List String → DFrame → Except String DFrame
  | [], acc => .ok acc
  | c :: cs, acc =>
    if c = "id_left" ∨ c = "id_right" then joinRelCols d labs cs acc
    else do
      let s ← d.relation.getCol c
      let sel ← seriesSel s labs
      joinRelCols d labs cs
        (acc.join ⟨"", [c], enumFromV 0 (sel.map (fun p => [p.2]))⟩)

/-- `DataPackFrameView.__getitem__`: normalise the index, pull the matched
left and right entity rows (index moved into a column), join them side by
side, then join on every non-identifier relation column. -/
def DataPack.frameGetItem (d : DataPack) (index : PyIndex) : Except String DFrame := do
  let sL ← d.relation.getCol "id_left"
  let idsL ← seriesSel sL ((convert_to_list_index index d.len).map Value.int)
  let left0 ← d.left.loc (idsL.map Prod.snd)
  let sR ← d.relation.getCol "id_right"
  let idsR ← seriesSel sR ((convert_to_list_index index d.len).map Value.int)
  let right0 ← d.right.loc (idsR.map Prod.snd)
  joinRelCols d ((convert_to_list_index index d.len).map Value.int) d.relation.cols
    (left0.resetIndexKeep.join right0.resetIndexKeep)

/-- Slicing a view recomputes from the referenced pack's current content. -/
def DataPackFrameView.getItem (v : DataPackFrameView) (index : PyIndex) :
    Except String DFrame :=
  v.data_pack.frameGetItem index

/-- `view()`: the full frame, equivalent to `view[:]`. -/
def DataPackFrameView.call (v : DataPackFrameView) : Except String DFrame :=
  v.getItem (.slice none none none)

/-- `DataPack.unpack`: materialise the full frame, split off the label
column when present, and turn every remaining column into a named array. -/
def DataPack.unpack (d : DataPack) :
    Except String (List (String × List Value) × Option (List Value)) := do
  let frame ← (DataPack.frame d).call
  let py ← if d.has_label then do
      let s ← frame.getCol "label"
      pure (frame.cols.erase "label", some (s.map Prod.snd))
    else
      pure (frame.cols, (none : Option (List Value)))
  let x ← mapME (fun c => do
    let s ← frame.getCol c
    pure (c, s.map Prod.snd)) py.1
  pure (x, py.2)

/-- `df.drop(columns=c)`: remove every column named `c` (and the matching
cell of each row); dropping an absent column is a key error. -/
def DFrame.dropCol (t : DFrame) (c : String) : Except String DFrame :=
  if c ∈ t.cols then
    .ok ⟨t.idxName, t.cols.filter (fun x => decide (x ≠ c)),
      t.rows.map (fun p =>
        (p.1, ((t.cols.zip p.2).filter (fun q => decide (q.1 ≠ c))).map Prod.snd))⟩
  else .error "KeyError"

/-- Body of `drop_label` (run on the in-place target chosen by the
decorator): drop the `label` column of the relation table. -/
def dropLabelCore (d : DataPack) : Except String DataPack := do
  let rel ← d.relation.dropCol "label"
  pure ⟨rel, d.left, d.right⟩

/-- The `_optional_inplace` decorator: apply the body to `self` when
`inplace` is set, otherwise to a copy which is then returned.  The first
component is the receiver's state after the call; the bodies modelled here
fail, when they fail, before mutating anything, so a raised error leaves
the receiver unchanged. -/
def runOptionalInplace (f : DataPack → Except String DataPack)
    (d : DataPack) (inplace : Bool) : DataPack × Except String (Option DataPack) :=
  match f (if inplace then d else d.copy) with
  | .ok t => if inplace then (t, .ok none) else (d, .ok (some t))
  | .error e => (d, .error e)

/-- `drop_label(inplace=...)` through the decorator. -/
def DataPack.drop_label (d : DataPack) (inplace : Bool) :
    DataPack × Except String (Option DataPack) :=
  runOptionalInplace dropLabelCore d inplace

/-- Body of `shuffle`: `sample(frac=1)` draws some permutation `sampled` of
the relation rows (the randomness is the caller-supplied permutation);
`reset_index(drop=True)` then renumbers it from zero. -/
def shuffleCore (sampled : List (Value × List Value)) (d : DataPack) : DataPack :=
  ⟨DFrame.resetIndexDrop ⟨d.relation.idxName, d.relation.cols, sampled⟩,
    d.left, d.right⟩

/-- `shuffle(inplace=...)` through the decorator, with the drawn
permutation of the relation rows made explicit. -/
def DataPack.shuffle (d : DataPack) (sampled : List (Value × List Value))
    (inplace : Bool) : DataPack × Except String (Option DataPack) :=
  runOptionalInplace (fun t => .ok (shuffleCore sampled t)) d inplace

/-- `df[name] = vals`: overwrite the column when the name exists, else
append a new column on the right (values aligned positionally, as for two
series over the same index). -/
def DFrame.setCol (t : DFrame) (name : String) (vals : List Value) : DFrame :=
  match colIdx? t.cols name with
  | some j => ⟨t.idxName, t.cols, (t.rows.zip vals).map (fun p => (p.1.1, p.1.2.set j p.2))⟩
  | none => ⟨t.idxName, t.cols ++ [name],
      (t.rows.zip vals).map (fun p => (p.1.1, p.1.2 ++ [p.2]))⟩

/-- The `rename` argument of `apply_on_text`: absent, a single name, or a
pair of names for `both` mode. -/
inductive RenameArg where
  | noRename : RenameArg
  | one : String → RenameArg
  | pair : String → String → RenameArg

/-- `_apply_on_text_left`: apply `func` to the `text_left` column of the
left table and store the result under `name` (the progress bar controlled
by `verbose` is cosmetic and not modelled). -/
def applyOnTextLeftFrame (func : Value → Value) (name : String) (t : DFrame) :
    Except String DFrame := do
  let s ← t.getCol "text_left"
  pure (t.setCol name (s.map (fun p => func p.2)))

/-- `_apply_on_text_right`, symmetric to the left case. -/
def applyOnTextRightFrame (func : Value → Value) (name : String) (t : DFrame) :
    Except String DFrame := do
  let s ← t.getCol "text_right"
  pure (t.setCol name (s.map (fun p => func p.2)))

/-- Body of `apply_on_text`: dispatch on `mode`; any value other than
`both`, `left`, `right` raises a value error before touching any table. -/
def applyOnTextCore (func : Value → Value) (mode : String) (rename : RenameArg)
    (d : DataPack) : Except String DataPack :=
  if mode = "both" then do
    let names ← match rename with
      | .pair l r => Except.ok (l, r)
      | .noRename => Except.ok ("text_left", "text_right")
      | .one _ => Except.error "TypeError"
    let lf ← applyOnTextLeftFrame func names.1 d.left
    let rf ← applyOnTextRightFrame func names.2 d.right
    pure ⟨d.relation, lf, rf⟩
  else if mode = "left" then do
    let name := match rename with
      | .one s => s
      | _ => "text_left"
    let lf ← applyOnTextLeftFrame func name d.left
    pure ⟨d.relation, lf, d.right⟩
  else if mode = "right" then do
    let name := match rename with
      | .one s => s
      | _ => "text_right"
    let rf ← applyOnTextRightFrame func name d.right
    pure ⟨d.relation, d.left, rf⟩
  else
    .error "ValueError: mode must be one of left right both"

/-- `apply_on_text(..., inplace=...)` through the decorator. -/
def DataPack.apply_on_text (d : DataPack) (func : Value → Value) (mode : String)
    (rename : RenameArg) (inplace : Bool) :
    DataPack × Except String (Option DataPack) :=
  runOptionalInplace (applyOnTextCore func mode rename) d inplace

/-- Modelled from the spec: the file system that `save`/`load_data_pack`
talk to through `pathlib.Path` and `dill` (both external to this module) —
a set of existing directories and a map from file paths to the serialised
`DataPack` they hold; `dill` round-trips the object itself. -/
structure FileSys where
  dirs : List String
  files : List (String × DataPack)

/-- `DataPack.DATA_FILENAME`. -/
def DATA_FILENAME : String := "data.dill"

/-- `dirpath.joinpath(name)`. -/
def joinPath (dir file : String) : String := dir ++ "/" ++ file

/-- Look up a file's content in the modelled file system. -/
def FileSys.lookup (fs : FileSys) (p : String) : Option DataPack :=
  (fs.files.find? (fun kv => decide (kv.1 = p))).map Prod.snd

/-- `DataPack.save`: fail if the data file already exists; otherwise create
the directory when absent and write the serialised pack. -/
def DataPack.save (d : DataPack) (dirpath : String) (fs : FileSys) :
    FileSys × Except String Unit :=
  if (fs.lookup (joinPath dirpath DATA_FILENAME)).isSome then
    (fs, .error "FileExistsError")
  else if dirpath ∈ fs.dirs then
    (⟨fs.dirs, (joinPath dirpath DATA_FILENAME, d) :: fs.files⟩, .ok ())
  else
    (⟨dirpath :: fs.dirs, (joinPath dirpath DATA_FILENAME, d) :: fs.files⟩, .ok ())

/-- `load_data_pack`: read the data file back. -/
def load_data_pack (dirpath : String) (fs : FileSys) : Except String DataPack :=
  match fs.lookup (joinPath dirpath DATA_FILENAME) with
  | some d => .ok d
  | none => .error "FileNotFoundError"

/-! ## Derived accessors used to state the specification theorems -/

/-- The index labels (keys) of a table. -/
def DFrame.keys (t : DFrame) : List Value := t.rows.map Prod.fst

/-- Position of the first column named `c`, with the column count as the
out-of-range default when absent. -/
def colPosL (cols : List String) (c : String) : Nat :=
  (colIdx? cols c).getD cols.length

/-- The relation columns other than the two identifier columns, in order. -/
def nonIdCols (cols : List String) : List String :=
  cols.filter (fun c => decide (¬(c = "id_left" ∨ c = "id_right")))

/-- The table carries a fresh zero-based range index. -/
def DFrame.stdIndex (t : DFrame) : Prop :=
  t.rows = enumFromV 0 (t.rows.map Prod.snd)

instance (t : DFrame) : Decidable t.stdIndex := by
  unfold DFrame.stdIndex; infer_instance

/-- Every row of the table has one cell per column. -/
def DFrame.rect (t : DFrame) : Prop :=
  ∀ r ∈ t.rows, r.2.length = t.cols.length

instance (t : DFrame) : Decidable t.rect := by
  unfold DFrame.rect; infer_instance

/-- The cell values of the relation row at position `i`. -/
def relRowAt (d : DataPack) (i : Int) : List Value :=
  (d.relation.rows.map Prod.snd).getD i.toNat []

/-- The left identifier carried by the relation row at position `i`. -/
def leftIdAt (d : DataPack) (i : Int) : Value :=
  (relRowAt d i).getD (colPosL d.relation.cols "id_left") (Value.int 0)

/-- The right identifier carried by the relation row at position `i`. -/
def rightIdAt (d : DataPack) (i : Int) : Value :=
  (relRowAt d i).getD (colPosL d.relation.cols "id_right") (Value.int 0)

/-- Column names of a frame-view slice: the left identifier and left
columns, then the right identifier and right columns, then the remaining
relation columns. -/
def frameCols (d : DataPack) : List String :=
  (d.left.idxName :: d.left.cols) ++ (d.right.idxName :: d.right.cols) ++
    nonIdCols d.relation.cols

/-- Cell values of the frame-view row for requested position `i`: the
matched left entity (identifier first), the matched right entity, then the
non-identifier relation cells of the row at `i`. -/
def frameRowAt (d : DataPack) (i : Int) : List Value :=
  (leftIdAt d i :: (d.left.locRow (leftIdAt d i)).getD []) ++
    (rightIdAt d i :: (d.right.locRow (rightIdAt d i)).getD []) ++
    (nonIdCols d.relation.cols).map
      (fun c => (relRowAt d i).getD (colPosL d.relation.cols c) (Value.int 0))

/-- Referential integrity: each relation row's left identifier is a key of
`left` and its right identifier a key of `right`. -/
def RI (d : DataPack) : Prop :=
  (∀ r ∈ d.relation.rows,
      r.2.getD (colPosL d.relation.cols "id_left") (Value.int 0) ∈ d.left.keys) ∧
  (∀ r ∈ d.relation.rows,
      r.2.getD (colPosL d.relation.cols "id_right") (Value.int 0) ∈ d.right.keys)

instance (d : DataPack) : Decidable (RI d) := by
  unfold RI DFrame.keys; infer_instance

/-- All requested positions are valid for a table of `n` rows. -/
def validIdx (idx : List Int) (n : Nat) : Prop :=
  ∀ i ∈ idx, 0 ≤ i ∧ i < (n : Int)

instance (idx : List Int) (n : Nat) : Decidable (validIdx idx n) := by
  unfold validIdx; infer_instance

/-! ## Basic lemmas about the table model -/

theorem length_enumFromV (off : Nat) (l : List α) :
    (enumFromV off l).length = l.length := by
  induction l generalizing off with
  | nil => rfl
  | cons a l ih => simp [enumFromV, ih]

theorem getElem_enumFromV (off : Nat) (l : List α) (k : Nat)
    (h : k < (enumFromV off l).length) :
    (enumFromV off l)[k] = (Value.int (off + k), l.get ⟨k, by
      simpa [length_enumFromV] using h⟩) := by
  induction l generalizing off k with
  | nil => simp [length_enumFromV] at h
  | cons a l ih =>
    cases k with
    | zero => rfl
    | succ k =>
      have h' : k < (enumFromV (off + 1) l).length := by
        rw [length_enumFromV] at h ⊢
        simpa using Nat.lt_of_succ_lt_succ h
      show (enumFromV (off + 1) l)[k] = _
      rw [ih (off + 1) k h']
      have hc : ((off + 1 : Nat) : Int) + (k : Int) =
          (off : Int) + ((k + 1 : Nat) : Int) := by push_cast; ring
      simp only [hc]
      rfl

theorem map_snd_enumFromV (off : Nat) (l : List α) :
    (enumFromV off l).map Prod.snd = l := by
  induction l generalizing off with
  | nil => rfl
  | cons a l ih => simp [enumFromV, ih]

theorem map_enumFromV (f : α → β) (off : Nat) (l : List α) :
    (enumFromV off l).map (fun p => (p.1, f p.2)) = enumFromV off (l.map f) := by
  induction l generalizing off with
  | nil => rfl
  | cons a l ih => simp [enumFromV, ih]

theorem find?_enumFromV_hit (off k : Nat) (l : List α) (h : k < l.length) :
    (enumFromV off l).find? (fun p => decide (p.1 = Value.int (off + k))) =
      some (Value.int (off + k), l[k]) := by
  induction l generalizing off k with
  | nil => simp at h
  | cons a l ih =>
    cases k with
    | zero =>
      apply List.find?_cons_of_pos
      simp [enumFromV]
    | succ k =>
      rw [show enumFromV off (a :: l) =
        (Value.int off, a) :: enumFromV (off + 1) l from rfl]
      rw [List.find?_cons_of_neg]
      · have := ih (off + 1) k (Nat.lt_of_succ_lt_succ h)
        rw [show (((off + 1 : Nat) : Int) + (k : Int)) =
          ((off : Int) + ((k + 1 : Nat) : Int)) from by push_cast; ring] at this
        rw [this]
        simp
      · simp; omega

theorem find?_enumFromV_none (off : Nat) (l : List α) (i : Int)
    (h : i < off ∨ (off : Int) + l.length ≤ i) :
    (enumFromV off l).find? (fun p => decide (p.1 = Value.int i)) = none := by
  induction l generalizing off with
  | nil => rfl
  | cons a l ih =>
    rw [show enumFromV off (a :: l) =
      (Value.int off, a) :: enumFromV (off + 1) l from rfl]
    rw [List.find?_cons_of_neg]
    · apply ih
      simp only [List.length_cons] at h
      omega
    · simp only [List.length_cons] at h
      simp; omega

theorem find?_enumFromV_int (l : List α) (d₀ : α) (i : Int) (h0 : 0 ≤ i)
    (h1 : i < l.length) :
    (enumFromV 0 l).find? (fun p => decide (p.1 = Value.int i)) =
      some (Value.int i, l.getD i.toNat d₀) := by
  have hk : i.toNat < l.length := by omega
  have := find?_enumFromV_hit 0 i.toNat l hk
  rw [show (((0 : Nat) : Int) + (i.toNat : Int)) = i from by omega] at this
  rw [this, List.getD_eq_getElem l d₀ hk]

theorem mapME_ok {f : α → Except String β} {g : α → β} :
    ∀ {l : List α}, (∀ a ∈ l, f a = .ok (g a)) → mapME f l = .ok (l.map g) := by
  intro l
  induction l with
  | nil => intro; rfl
  | cons a l ih =>
    intro h
    have ha := h a (List.mem_cons_self a l)
    have ht := ih (fun x hx => h x (List.mem_cons_of_mem a hx))
    simp [mapME, ha, ht]; rfl

theorem locRow_isSome_iff (t : DFrame) (lab : Value) :
    (t.locRow lab).isSome ↔ lab ∈ t.keys := by
  unfold DFrame.locRow DFrame.keys
  have hms : (Option.map Prod.snd
      (t.rows.find? (fun p => decide (p.1 = lab)))).isSome =
      (t.rows.find? (fun p => decide (p.1 = lab))).isSome := by
    cases t.rows.find? (fun p => decide (p.1 = lab)) <;> rfl
  rw [hms, List.find?_isSome]
  constructor
  · rintro ⟨p, hp, hd⟩
    simp at hd
    exact hd ▸ List.mem_map_of_mem Prod.fst hp
  · intro h
    obtain ⟨p, hp, he⟩ := List.mem_map.mp h
    exact ⟨p, hp, by simp [he]⟩

theorem locRow_enum (t : DFrame) (vs : List (List Value))
    (hrel : t.rows = enumFromV 0 vs) (i : Int) (h0 : 0 ≤ i) (h1 : i < vs.length) :
    t.locRow (Value.int i) = some (vs.getD i.toNat []) := by
  unfold DFrame.locRow
  rw [hrel, find?_enumFromV_int vs [] i h0 h1]
  rfl

theorem loc_ok (t : DFrame) (labs : List Value)
    (h : ∀ l ∈ labs, (t.locRow l).isSome) :
    t.loc labs = .ok ⟨t.idxName, t.cols, labs.map (fun l => (l, (t.locRow l).getD []))⟩ := by
  unfold DFrame.loc
  rw [mapME_ok (g := fun l => (l, (t.locRow l).getD []))]
  · rfl
  · intro l hl
    obtain ⟨r, hr⟩ := Option.isSome_iff_exists.mp (h l hl)
    rw [hr]
    simp

theorem loc_enum (t : DFrame) (vs : List (List Value))
    (hrel : t.rows = enumFromV 0 vs) (idx : List Int)
    (h : ∀ i ∈ idx, 0 ≤ i ∧ i < (vs.length : Int)) :
    t.loc (idx.map Value.int) =
      .ok ⟨t.idxName, t.cols, idx.map (fun i => (Value.int i, vs.getD i.toNat []))⟩ := by
  rw [loc_ok]
  · congr 1
    simp only [DFrame.mk.injEq, true_and]
    rw [List.map_map]
    apply List.map_congr_left
    intro i hi
    obtain ⟨h0, h1⟩ := h i hi
    simp only [Function.comp]
    rw [locRow_enum t vs hrel i h0 h1]
    rfl
  · intro l hl
    obtain ⟨i, hi, rfl⟩ := List.mem_map.mp hl
    obtain ⟨h0, h1⟩ := h i hi
    rw [locRow_enum t vs hrel i h0 h1]
    rfl

/-- Value of a series at a label (first match), with a zero default. -/
def seriesGet (s : List (Value × Value)) (lab : Value) : Value :=
  ((s.find? (fun p => decide (p.1 = lab))).map Prod.snd).getD (Value.int 0)

theorem seriesSel_ok (s : List (Value × Value)) (labs : List Value)
    (h : ∀ l ∈ labs, (s.find? (fun p => decide (p.1 = l))).isSome) :
    seriesSel s labs = .ok (labs.map (fun l => (l, seriesGet s l))) := by
  unfold seriesSel
  apply mapME_ok
  intro l hl
  obtain ⟨p, hp⟩ := Option.isSome_iff_exists.mp (h l hl)
  rw [hp]
  unfold seriesGet
  rw [hp]
  rfl

theorem seriesSel_enum (ws : List Value) (idx : List Int)
    (h : ∀ i ∈ idx, 0 ≤ i ∧ i < (ws.length : Int)) :
    seriesSel (enumFromV 0 ws) (idx.map Value.int) =
      .ok (idx.map (fun i => (Value.int i, ws.getD i.toNat (Value.int 0)))) := by
  rw [seriesSel_ok]
  · congr 1
    rw [List.map_map]
    apply List.map_congr_left
    intro i hi
    obtain ⟨h0, h1⟩ := h i hi
    simp only [Function.comp]
    unfold seriesGet
    rw [find?_enumFromV_int ws (Value.int 0) i h0 h1]
    rfl
  · intro l hl
    obtain ⟨i, hi, rfl⟩ := List.mem_map.mp hl
    obtain ⟨h0, h1⟩ := h i hi
    rw [find?_enumFromV_int ws (Value.int 0) i h0 h1]
    rfl

theorem colIdx?_isSome_iff (cols : List String) (c : String) :
    (colIdx? cols c).isSome ↔ c ∈ cols := by
  induction cols with
  | nil => simp [colIdx?]
  | cons x xs ih =>
    by_cases hx : x = c
    · simp [colIdx?, hx]
    · simp [colIdx?, hx, ih, Option.isSome_map]
      exact fun he => absurd he.symm hx

theorem colIdx?_eq_colPosL (cols : List String) (c : String) (h : c ∈ cols) :
    colIdx? cols c = some (colPosL cols c) := by
  obtain ⟨j, hj⟩ := Option.isSome_iff_exists.mp ((colIdx?_isSome_iff cols c).mpr h)
  rw [colPosL, hj]
  rfl

theorem getCol_ok (t : DFrame) (c : String) (h : c ∈ t.cols) :
    t.getCol c =
      .ok (t.rows.map (fun p => (p.1, p.2.getD (colPosL t.cols c) (Value.int 0)))) := by
  unfold DFrame.getCol
  rw [colIdx?_eq_colPosL t.cols c h]

theorem getD_map_lt (f : α → β) (l : List α) (k : Nat) (h : k < l.length)
    (d₀ : β) (d₁ : α) : (l.map f).getD k d₀ = f (l.getD k d₁) := by
  rw [List.getD_eq_getElem _ d₀ (by simpa using h), List.getD_eq_getElem _ d₁ h]
  simp

theorem zipWith_map_same (f : α → β) (g : α → β) (h : β → β → γ) (l : List α) :
    List.zipWith h (l.map f) (l.map g) = l.map (fun x => h (f x) (g x)) := by
  induction l with
  | nil => rfl
  | cons a l ih => simp [ih]

theorem join_enum (n₁ n₂ : String) (cs₁ cs₂ : List String)
    (as bs : List (List Value)) (h : bs.length = as.length) :
    DFrame.join ⟨n₁, cs₁, enumFromV 0 as⟩ ⟨n₂, cs₂, enumFromV 0 bs⟩ =
      ⟨n₁, cs₁ ++ cs₂, enumFromV 0 (List.zipWith (· ++ ·) as bs)⟩ := by
  unfold DFrame.join
  simp only [DFrame.mk.injEq, true_and]
  apply List.ext_getElem
  · simp [length_enumFromV, List.length_zipWith, h]
  · intro k h₁ h₂
    simp only [List.length_map, length_enumFromV] at h₁
    have hk : k < as.length := h₁
    have hkb : k < bs.length := by omega
    have hloc := locRow_enum (⟨n₂, cs₂, enumFromV 0 bs⟩ : DFrame) bs rfl (k : Int)
      (by omega) (by exact_mod_cast hkb)
    rw [List.getElem_map, getElem_enumFromV 0 as k (by simpa [length_enumFromV] using hk)]
    rw [getElem_enumFromV 0 (List.zipWith (· ++ ·) as bs) k h₂]
    simp only [Nat.cast_zero, zero_add]
    rw [hloc]
    simp only [Option.getD_some]
    congr 1
    simp only [List.get_eq_getElem]
    rw [List.getElem_zipWith]
    congr 1
    rw [List.getD_eq_getElem bs [] (by simpa using hkb)]
    simp

theorem mem_uniqueFirst (x : Value) : ∀ (l : List Value), x ∈ uniqueFirst l ↔ x ∈ l := by
  intro l
  induction l using uniqueFirst.induct with
  | case1 => simp [uniqueFirst]
  | case2 y ys ih =>
    rw [uniqueFirst]
    by_cases hxy : x = y
    · simp [hxy]
    · simp only [List.mem_cons, hxy, false_or]
      rw [ih, List.mem_filter]
      constructor
      · exact fun ⟨h1, _⟩ => h1
      · exact fun h1 => ⟨h1, by simpa using hxy⟩

theorem ok_bind (a : α) (f : α → Except String β) :
    ((Except.ok a : Except String α) >>= f) = f a := rfl

theorem error_bind (e : String) (f : α → Except String β) :
    ((Except.error e : Except String α) >>= f) = .error e := rfl

theorem pureE_bind (a : α) (f : α → Except String β) :
    ((pure a : Except String α) >>= f) = f a := rfl

theorem sliceIndices_default (n : Nat) :
    sliceIndices none none none n = (List.range n).map Int.ofNat := by
  have hfm : ∀ l : List Nat, (l.flatMap fun a => [(a : Int)]) = l.map Int.ofNat := by
    intro l
    induction l with
    | nil => rfl
    | cons a l ih => simp [ih]
  unfold sliceIndices
  norm_num
  exact hfm (List.range n)

theorem relRowAt_mem (d : DataPack) (i : Int) (h0 : 0 ≤ i)
    (h1 : i < (d.len : Int)) : ∃ r ∈ d.relation.rows, r.2 = relRowAt d i := by
  have hlt : i.toNat < (d.relation.rows.map Prod.snd).length := by
    simp only [List.length_map]
    unfold DataPack.len at h1
    omega
  have : relRowAt d i = (d.relation.rows.map Prod.snd)[i.toNat] :=
    List.getD_eq_getElem _ [] hlt
  rw [List.getElem_map] at this
  exact ⟨d.relation.rows.get ⟨i.toNat, by simpa using hlt⟩,
    List.get_mem _ _ _, this.symm⟩

theorem locRow_left_isSome (d : DataPack) (hri : RI d) (i : Int) (h0 : 0 ≤ i)
    (h1 : i < (d.len : Int)) : (d.left.locRow (leftIdAt d i)).isSome := by
  obtain ⟨r, hr, he⟩ := relRowAt_mem d i h0 h1
  rw [locRow_isSome_iff]
  have := hri.1 r hr
  rw [he] at this
  exact this

theorem locRow_right_isSome (d : DataPack) (hri : RI d) (i : Int) (h0 : 0 ≤ i)
    (h1 : i < (d.len : Int)) : (d.right.locRow (rightIdAt d i)).isSome := by
  obtain ⟨r, hr, he⟩ := relRowAt_mem d i h0 h1
  rw [locRow_isSome_iff]
  have := hri.2 r hr
  rw [he] at this
  exact this

theorem joinRelCols_enum (d : DataPack) (rvs : List (List Value))
    (hrel : d.relation.rows = enumFromV 0 rvs)
    (idx : List Int) (hidx : ∀ i ∈ idx, 0 ≤ i ∧ i < (rvs.length : Int)) :
    ∀ (cs : List String), (∀ c ∈ cs, c ∈ d.relation.cols) →
    ∀ (nm : String) (accCols : List String) (accRow : Int → List Value),
    joinRelCols d (idx.map Value.int) cs ⟨nm, accCols, enumFromV 0 (idx.map accRow)⟩ =
      .ok ⟨nm, accCols ++ nonIdCols cs,
        enumFromV 0 (idx.map (fun i => accRow i ++ (nonIdCols cs).map (fun c =>
          (rvs.getD i.toNat []).getD (colPosL d.relation.cols c) (Value.int 0))))⟩ := by
  intro cs
  induction cs with
  | nil =>
    intro _ nm accCols accRow
    simp [joinRelCols, nonIdCols]
  | cons c cs ih =>
    intro hcs nm accCols accRow
    by_cases hskip : c = "id_left" ∨ c = "id_right"
    · rw [show joinRelCols d (idx.map Value.int) (c :: cs)
          ⟨nm, accCols, enumFromV 0 (idx.map accRow)⟩ =
          joinRelCols d (idx.map Value.int) cs
          ⟨nm, accCols, enumFromV 0 (idx.map accRow)⟩ from by
        simp [joinRelCols, hskip]]
      rw [ih (fun x hx => hcs x (List.mem_cons_of_mem c hx)) nm accCols accRow]
      have hnon : nonIdCols (c :: cs) = nonIdCols cs := by
        rcases hskip with h | h <;> simp [nonIdCols, h]
      rw [hnon]
    · have hmem : c ∈ d.relation.cols := hcs c (List.mem_cons_self c cs)
      have hcol := getCol_ok d.relation c hmem
      rw [hrel] at hcol
      rw [show ((enumFromV 0 rvs).map
          (fun p => (p.1, p.2.getD (colPosL d.relation.cols c) (Value.int 0)))) =
          enumFromV 0 (rvs.map
            (fun r => r.getD (colPosL d.relation.cols c) (Value.int 0))) from
        map_enumFromV (fun r => r.getD (colPosL d.relation.cols c) (Value.int 0))
          0 rvs] at hcol
      have hser := seriesSel_enum
        (rvs.map (fun r => r.getD (colPosL d.relation.cols c) (Value.int 0))) idx
        (by
          intro i hi
          rw [List.length_map]
          exact hidx i hi)
      rw [show (idx.map (fun i => (Value.int i,
          (rvs.map (fun r => r.getD (colPosL d.relation.cols c) (Value.int 0))).getD
            i.toNat (Value.int 0)))) =
          idx.map (fun i => (Value.int i,
            (rvs.getD i.toNat []).getD (colPosL d.relation.cols c) (Value.int 0))) from by
        apply List.map_congr_left
        intro i hi
        obtain ⟨h0, h1⟩ := hidx i hi
        rw [getD_map_lt _ rvs i.toNat (by omega) _ []]] at hser
      rw [show joinRelCols d (idx.map Value.int) (c :: cs)
          ⟨nm, accCols, enumFromV 0 (idx.map accRow)⟩ = (do
          let s ← d.relation.getCol c
          let sel ← seriesSel s (idx.map Value.int)
          joinRelCols d (idx.map Value.int) cs
            (DFrame.join ⟨nm, accCols, enumFromV 0 (idx.map accRow)⟩
              ⟨"", [c], enumFromV 0 (sel.map (fun p => [p.2]))⟩)) from by
        simp [joinRelCols, hskip]]
      rw [hcol, ok_bind, hser, ok_bind]
      have hjoin := join_enum nm "" accCols [c] (idx.map accRow)
        ((idx.map (fun i => (Value.int i,
          (rvs.getD i.toNat []).getD (colPosL d.relation.cols c) (Value.int 0)))).map
          (fun p => [p.2]))
        (by simp)
      rw [hjoin]
      have hz : List.zipWith (· ++ ·) (idx.map accRow)
          ((idx.map (fun i => (Value.int i,
            (rvs.getD i.toNat []).getD (colPosL d.relation.cols c) (Value.int 0)))).map
            (fun p => [p.2])) =
          idx.map (fun i => accRow i ++
            [(rvs.getD i.toNat []).getD (colPosL d.relation.cols c) (Value.int 0)]) := by
        rw [List.map_map]
        exact zipWith_map_same accRow _ (· ++ ·) idx
      rw [hz]
      rw [ih (fun x hx => hcs x (List.mem_cons_of_mem c hx)) nm (accCols ++ [c])
        (fun i => accRow i ++
          [(rvs.getD i.toNat []).getD (colPosL d.relation.cols c) (Value.int 0)])]
      have hnon : nonIdCols (c :: cs) = c :: nonIdCols cs := by
        have hsk := hskip
        push_neg at hsk
        simp [nonIdCols, List.filter_cons, hsk.1, hsk.2]
      rw [hnon]
      simp only [Except.ok.injEq, DFrame.mk.injEq, true_and]
      constructor
      · simp
      · congr 1
        apply List.map_congr_left
        intro i hi
        simp

theorem frameGetItem_spec (d : DataPack) (index : PyIndex) (idx : List Int)
    (hcv : convert_to_list_index index d.len = idx)
    (hstd : d.relation.stdIndex)
    (hL : "id_left" ∈ d.relation.cols) (hR : "id_right" ∈ d.relation.cols)
    (hidx : validIdx idx d.len) (hri : RI d) :
    d.frameGetItem index =
      .ok ⟨"", frameCols d, enumFromV 0 (idx.map (frameRowAt d))⟩ := by
  obtain ⟨vs, hrel, hvs⟩ :
      ∃ vs, d.relation.rows = enumFromV 0 vs ∧ vs = d.relation.rows.map Prod.snd :=
    ⟨_, hstd, rfl⟩
  have hvslen : (vs.length : Int) = (d.len : Int) := by
    rw [hvs]; simp [DataPack.len]
  have hidxv : ∀ i ∈ idx, 0 ≤ i ∧ i < (vs.length : Int) := by
    intro i hi
    rw [hvslen]
    exact hidx i hi
  have h1 : d.relation.getCol "id_left" =
      .ok (enumFromV 0 (vs.map
        (fun r => r.getD (colPosL d.relation.cols "id_left") (Value.int 0)))) := by
    rw [getCol_ok d.relation "id_left" hL, hrel]
    rw [show ((enumFromV 0 vs).map
        (fun p => (p.1, p.2.getD (colPosL d.relation.cols "id_left") (Value.int 0)))) =
        enumFromV 0 (vs.map
          (fun r => r.getD (colPosL d.relation.cols "id_left") (Value.int 0))) from
      map_enumFromV (fun r => r.getD (colPosL d.relation.cols "id_left") (Value.int 0)) 0 vs]
  have h2 : seriesSel (enumFromV 0 (vs.map
      (fun r => r.getD (colPosL d.relation.cols "id_left") (Value.int 0))))
      (idx.map Value.int) =
      .ok (idx.map (fun i => (Value.int i,
        (vs.getD i.toNat []).getD (colPosL d.relation.cols "id_left") (Value.int 0)))) := by
    rw [seriesSel_enum _ idx (by
      intro i hi
      rw [List.length_map]
      exact hidxv i hi)]
    congr 1
    apply List.map_congr_left
    intro i hi
    obtain ⟨h0, h1⟩ := hidxv i hi
    rw [getD_map_lt _ vs i.toNat (by omega) _ []]
  have h3 : ((idx.map (fun i => (Value.int i,
      (vs.getD i.toNat []).getD (colPosL d.relation.cols "id_left") (Value.int 0)))).map
      Prod.snd) =
      idx.map (fun i =>
        (vs.getD i.toNat []).getD (colPosL d.relation.cols "id_left") (Value.int 0)) := by
    rw [List.map_map]
    rfl
  have hlid : ∀ i ∈ idx,
      ((vs.getD i.toNat []).getD (colPosL d.relation.cols "id_left") (Value.int 0)) =
        leftIdAt d i := by
    intro i hi
    unfold leftIdAt relRowAt
    rw [hvs]
  have hrid : ∀ i ∈ idx,
      ((vs.getD i.toNat []).getD (colPosL d.relation.cols "id_right") (Value.int 0)) =
        rightIdAt d i := by
    intro i hi
    unfold rightIdAt relRowAt
    rw [hvs]
  have h4 : d.left.loc (idx.map (fun i =>
      (vs.getD i.toNat []).getD (colPosL d.relation.cols "id_left") (Value.int 0))) =
      .ok ⟨d.left.idxName, d.left.cols, idx.map (fun i =>
        ((vs.getD i.toNat []).getD (colPosL d.relation.cols "id_left") (Value.int 0),
          (d.left.locRow ((vs.getD i.toNat []).getD (colPosL d.relation.cols "id_left")
            (Value.int 0))).getD []))⟩ := by
    rw [loc_ok d.left _ (by
      intro l hl
      obtain ⟨i, hi, rfl⟩ := List.mem_map.mp hl
      rw [hlid i hi]
      exact locRow_left_isSome d hri i (hidx i hi).1 (hidx i hi).2)]
    rw [List.map_map]
    rfl
  have h5 : d.relation.getCol "id_right" =
      .ok (enumFromV 0 (vs.map
        (fun r => r.getD (colPosL d.relation.cols "id_right") (Value.int 0)))) := by
    rw [getCol_ok d.relation "id_right" hR, hrel]
    rw [show ((enumFromV 0 vs).map
        (fun p => (p.1, p.2.getD (colPosL d.relation.cols "id_right") (Value.int 0)))) =
        enumFromV 0 (vs.map
          (fun r => r.getD (colPosL d.relation.cols "id_right") (Value.int 0))) from
      map_enumFromV (fun r => r.getD (colPosL d.relation.cols "id_right") (Value.int 0)) 0 vs]
  have h6 : seriesSel (enumFromV 0 (vs.map
      (fun r => r.getD (colPosL d.relation.cols "id_right") (Value.int 0))))
      (idx.map Value.int) =
      .ok (idx.map (fun i => (Value.int i,
        (vs.getD i.toNat []).getD (colPosL d.relation.cols "id_right") (Value.int 0)))) := by
    rw [seriesSel_enum _ idx (by
      intro i hi
      rw [List.length_map]
      exact hidxv i hi)]
    congr 1
    apply List.map_congr_left
    intro i hi
    obtain ⟨h0, h1⟩ := hidxv i hi
    rw [getD_map_lt _ vs i.toNat (by omega) _ []]
  have h7 : ((idx.map (fun i => (Value.int i,
      (vs.getD i.toNat []).getD (colPosL d.relation.cols "id_right") (Value.int 0)))).map
      Prod.snd) =
      idx.map (fun i =>
        (vs.getD i.toNat []).getD (colPosL d.relation.cols "id_right") (Value.int 0)) := by
    rw [List.map_map]
    rfl
  have h8 : d.right.loc (idx.map (fun i =>
      (vs.getD i.toNat []).getD (colPosL d.relation.cols "id_right") (Value.int 0))) =
      .ok ⟨d.right.idxName, d.right.cols, idx.map (fun i =>
        ((vs.getD i.toNat []).getD (colPosL d.relation.cols "id_right") (Value.int 0),
          (d.right.locRow ((vs.getD i.toNat []).getD (colPosL d.relation.cols "id_right")
            (Value.int 0))).getD []))⟩ := by
    rw [loc_ok d.right _ (by
      intro l hl
      obtain ⟨i, hi, rfl⟩ := List.mem_map.mp hl
      rw [hrid i hi]
      exact locRow_right_isSome d hri i (hidx i hi).1 (hidx i hi).2)]
    rw [List.map_map]
    rfl
  have hframe : DFrame.join
      (DFrame.resetIndexKeep ⟨d.left.idxName, d.left.cols, idx.map (fun i =>
        ((vs.getD i.toNat []).getD (colPosL d.relation.cols "id_left") (Value.int 0),
          (d.left.locRow ((vs.getD i.toNat []).getD (colPosL d.relation.cols "id_left")
            (Value.int 0))).getD []))⟩)
      (DFrame.resetIndexKeep ⟨d.right.idxName, d.right.cols, idx.map (fun i =>
        ((vs.getD i.toNat []).getD (colPosL d.relation.cols "id_right") (Value.int 0),
          (d.right.locRow ((vs.getD i.toNat []).getD (colPosL d.relation.cols "id_right")
            (Value.int 0))).getD []))⟩) =
      ⟨"", (d.left.idxName :: d.left.cols) ++ (d.right.idxName :: d.right.cols),
        enumFromV 0 (idx.map (fun i =>
          (((vs.getD i.toNat []).getD (colPosL d.relation.cols "id_left") (Value.int 0)) ::
            (d.left.locRow ((vs.getD i.toNat []).getD (colPosL d.relation.cols "id_left")
              (Value.int 0))).getD []) ++
          (((vs.getD i.toNat []).getD (colPosL d.relation.cols "id_right") (Value.int 0)) ::
            (d.right.locRow ((vs.getD i.toNat []).getD (colPosL d.relation.cols "id_right")
              (Value.int 0))).getD [])))⟩ := by
    unfold DFrame.resetIndexKeep
    simp only [List.map_map]
    rw [join_enum _ _ _ _ _ _ (by simp)]
    simp only [DFrame.mk.injEq, true_and]
    rw [show (idx.map ((fun p => p.1 :: p.2) ∘ (fun i =>
        ((vs.getD i.toNat []).getD (colPosL d.relation.cols "id_left") (Value.int 0),
          (d.left.locRow ((vs.getD i.toNat []).getD (colPosL d.relation.cols "id_left")
            (Value.int 0))).getD [])))) =
      idx.map (fun i =>
        ((vs.getD i.toNat []).getD (colPosL d.relation.cols "id_left") (Value.int 0)) ::
          (d.left.locRow ((vs.getD i.toNat []).getD (colPosL d.relation.cols "id_left")
            (Value.int 0))).getD []) from rfl]
    rw [show (idx.map ((fun p => p.1 :: p.2) ∘ (fun i =>
        ((vs.getD i.toNat []).getD (colPosL d.relation.cols "id_right") (Value.int 0),
          (d.right.locRow ((vs.getD i.toNat []).getD (colPosL d.relation.cols "id_right")
            (Value.int 0))).getD [])))) =
      idx.map (fun i =>
        ((vs.getD i.toNat []).getD (colPosL d.relation.cols "id_right") (Value.int 0)) ::
          (d.right.locRow ((vs.getD i.toNat []).getD (colPosL d.relation.cols "id_right")
            (Value.int 0))).getD []) from rfl]
    rw [zipWith_map_same]
  have hjrc := joinRelCols_enum d vs hrel idx hidxv d.relation.cols (fun c hc => hc)
    "" ((d.left.idxName :: d.left.cols) ++ (d.right.idxName :: d.right.cols))
    (fun i =>
      (((vs.getD i.toNat []).getD (colPosL d.relation.cols "id_left") (Value.int 0)) ::
        (d.left.locRow ((vs.getD i.toNat []).getD (colPosL d.relation.cols "id_left")
          (Value.int 0))).getD []) ++
      (((vs.getD i.toNat []).getD (colPosL d.relation.cols "id_right") (Value.int 0)) ::
        (d.right.locRow ((vs.getD i.toNat []).getD (colPosL d.relation.cols "id_right")
          (Value.int 0))).getD []))
  unfold DataPack.frameGetItem
  rw [hcv]
  simp only [h1, ok_bind, h2, h3, h4, h5, h6, h7, h8, hframe, hjrc]
  simp only [Except.ok.injEq, DFrame.mk.injEq, true_and]
  constructor
  · rfl
  · rw [hvs]
    rfl

theorem getItem_spec (d : DataPack) (index : PyIndex) (idx : List Int)
    (hcv : convert_to_list_index index d.len = idx)
    (hstd : d.relation.stdIndex)
    (hL : "id_left" ∈ d.relation.cols) (hR : "id_right" ∈ d.relation.cols)
    (hidx : validIdx idx d.len) (hri : RI d) :
    d.getItem index = .ok
      ⟨⟨d.relation.idxName, d.relation.cols, enumFromV 0 (idx.map (relRowAt d))⟩,
        ⟨d.left.idxName, d.left.cols, (uniqueFirst (idx.map (leftIdAt d))).map
          (fun l => (l, (d.left.locRow l).getD []))⟩,
        ⟨d.right.idxName, d.right.cols, (uniqueFirst (idx.map (rightIdAt d))).map
          (fun l => (l, (d.right.locRow l).getD []))⟩⟩ := by
  obtain ⟨vs, hrel, hvs⟩ :
      ∃ vs, d.relation.rows = enumFromV 0 vs ∧ vs = d.relation.rows.map Prod.snd :=
    ⟨_, hstd, rfl⟩
  have hvslen : (vs.length : Int) = (d.len : Int) := by
    rw [hvs]; simp [DataPack.len]
  have hidxv : ∀ i ∈ idx, 0 ≤ i ∧ i < (vs.length : Int) := by
    intro i hi
    rw [hvslen]
    exact hidx i hi
  have hlid : ∀ i ∈ idx,
      ((vs.getD i.toNat []).getD (colPosL d.relation.cols "id_left") (Value.int 0)) =
        leftIdAt d i := by
    intro i hi
    unfold leftIdAt relRowAt
    rw [hvs]
  have hrid : ∀ i ∈ idx,
      ((vs.getD i.toNat []).getD (colPosL d.relation.cols "id_right") (Value.int 0)) =
        rightIdAt d i := by
    intro i hi
    unfold rightIdAt relRowAt
    rw [hvs]
  have g1 : d.relation.loc (idx.map Value.int) =
      .ok ⟨d.relation.idxName, d.relation.cols,
        idx.map (fun i => (Value.int i, vs.getD i.toNat []))⟩ :=
    loc_enum d.relation vs hrel idx hidxv
  have g2 : (DFrame.resetIndexDrop ⟨d.relation.idxName, d.relation.cols,
      idx.map (fun i => (Value.int i, vs.getD i.toNat []))⟩).getCol "id_left" =
      .ok (enumFromV 0 (idx.map (fun i =>
        (vs.getD i.toNat []).getD (colPosL d.relation.cols "id_left") (Value.int 0)))) := by
    rw [getCol_ok (DFrame.resetIndexDrop ⟨d.relation.idxName, d.relation.cols,
      idx.map (fun i => (Value.int i, vs.getD i.toNat []))⟩) "id_left" hL]
    simp only [DFrame.resetIndexDrop, List.map_map]
    rw [show ((enumFromV 0 (idx.map (Prod.snd ∘ fun i => (Value.int i, vs.getD i.toNat [])))).map
        (fun p => (p.1, p.2.getD (colPosL d.relation.cols "id_left") (Value.int 0)))) =
        enumFromV 0 ((idx.map (Prod.snd ∘ fun i => (Value.int i, vs.getD i.toNat []))).map
          (fun r => r.getD (colPosL d.relation.cols "id_left") (Value.int 0))) from
      map_enumFromV (fun r : List Value => r.getD (colPosL d.relation.cols "id_left") (Value.int 0)) 0
        (idx.map (Prod.snd ∘ fun i => (Value.int i, vs.getD i.toNat [])))]
    rw [List.map_map]
    rfl
  have g3 : ((enumFromV 0 (idx.map (fun i =>
      (vs.getD i.toNat []).getD (colPosL d.relation.cols "id_left") (Value.int 0)))).map
      Prod.snd) =
      idx.map (fun i =>
        (vs.getD i.toNat []).getD (colPosL d.relation.cols "id_left") (Value.int 0)) :=
    map_snd_enumFromV 0 _
  have g4 : d.left.loc (uniqueFirst (idx.map (fun i =>
      (vs.getD i.toNat []).getD (colPosL d.relation.cols "id_left") (Value.int 0)))) =
      .ok ⟨d.left.idxName, d.left.cols, (uniqueFirst (idx.map (fun i =>
        (vs.getD i.toNat []).getD (colPosL d.relation.cols "id_left") (Value.int 0)))).map
        (fun l => (l, (d.left.locRow l).getD []))⟩ := by
    apply loc_ok
    intro l hl
    rw [mem_uniqueFirst] at hl
    obtain ⟨i, hi, rfl⟩ := List.mem_map.mp hl
    rw [hlid i hi]
    exact locRow_left_isSome d hri i (hidx i hi).1 (hidx i hi).2
  have g5 : (DFrame.resetIndexDrop ⟨d.relation.idxName, d.relation.cols,
      idx.map (fun i => (Value.int i, vs.getD i.toNat []))⟩).getCol "id_right" =
      .ok (enumFromV 0 (idx.map (fun i =>
        (vs.getD i.toNat []).getD (colPosL d.relation.cols "id_right") (Value.int 0)))) := by
    rw [getCol_ok (DFrame.resetIndexDrop ⟨d.relation.idxName, d.relation.cols,
      idx.map (fun i => (Value.int i, vs.getD i.toNat []))⟩) "id_right" hR]
    simp only [DFrame.resetIndexDrop, List.map_map]
    rw [show ((enumFromV 0 (idx.map (Prod.snd ∘ fun i => (Value.int i, vs.getD i.toNat [])))).map
        (fun p => (p.1, p.2.getD (colPosL d.relation.cols "id_right") (Value.int 0)))) =
        enumFromV 0 ((idx.map (Prod.snd ∘ fun i => (Value.int i, vs.getD i.toNat []))).map
          (fun r => r.getD (colPosL d.relation.cols "id_right") (Value.int 0))) from
      map_enumFromV (fun r : List Value => r.getD (colPosL d.relation.cols "id_right") (Value.int 0)) 0
        (idx.map (Prod.snd ∘ fun i => (Value.int i, vs.getD i.toNat [])))]
    rw [List.map_map]
    rfl
  have g6 : ((enumFromV 0 (idx.map (fun i =>
      (vs.getD i.toNat []).getD (colPosL d.relation.cols "id_right") (Value.int 0)))).map
      Prod.snd) =
      idx.map (fun i =>
        (vs.getD i.toNat []).getD (colPosL d.relation.cols "id_right") (Value.int 0)) :=
    map_snd_enumFromV 0 _
  have g7 : d.right.loc (uniqueFirst (idx.map (fun i =>
      (vs.getD i.toNat []).getD (colPosL d.relation.cols "id_right") (Value.int 0)))) =
      .ok ⟨d.right.idxName, d.right.cols, (uniqueFirst (idx.map (fun i =>
        (vs.getD i.toNat []).getD (colPosL d.relation.cols "id_right") (Value.int 0)))).map
        (fun l => (l, (d.right.locRow l).getD []))⟩ := by
    apply loc_ok
    intro l hl
    rw [mem_uniqueFirst] at hl
    obtain ⟨i, hi, rfl⟩ := List.mem_map.mp hl
    rw [hrid i hi]
    exact locRow_right_isSome d hri i (hidx i hi).1 (hidx i hi).2
  unfold DataPack.getItem
  rw [hcv]
  simp only [g1, ok_bind, g2, g3, g4, g5, g6, g7]
  simp only [DFrame.resetIndexDrop, List.map_map]
  rw [hvs]
  rfl

theorem convert_default_slice (n : Nat) :
    convert_to_list_index (.slice none none none) n =
      (List.range n).map Int.ofNat := by
  unfold convert_to_list_index
  exact sliceIndices_default n

theorem snd_mem_of_mem_enumFromV {p : Value × α} :
    ∀ (off : Nat) (l : List α), p ∈ enumFromV off l → p.2 ∈ l := by
  intro off l
  induction l generalizing off with
  | nil => intro h; simp [enumFromV] at h
  | cons a l ih =>
    intro h
    rcases List.mem_cons.mp h with h | h
    · rw [h]; exact List.mem_cons_self _ _
    · exact List.mem_cons_of_mem _ (ih (off + 1) h)

theorem mem_enumFromV_of_mem {x : α} :
    ∀ (off : Nat) (l : List α), x ∈ l → ∃ lab, (lab, x) ∈ enumFromV off l := by
  intro off l
  induction l generalizing off with
  | nil => intro h; simp at h
  | cons a l ih =>
    intro h
    rcases List.mem_cons.mp h with h | h
    · exact ⟨Value.int off, by rw [h]; exact List.mem_cons_self _ _⟩
    · obtain ⟨lab, hlab⟩ := ih (off + 1) h
      exact ⟨lab, List.mem_cons_of_mem _ hlab⟩

theorem map_fst_pair_map (f : Value → List Value) (L : List Value) :
    ((L.map (fun l => (l, f l))).map Prod.fst) = L := by
  induction L with
  | nil => rfl
  | cons a L ih => simp [ih]

theorem loc_cols (t : DFrame) (labs : List Value) (u : DFrame)
    (h : t.loc labs = .ok u) : u.cols = t.cols ∧ u.idxName = t.idxName := by
  unfold DFrame.loc at h
  cases hm : mapME (fun l =>
      match t.locRow l with
      | some r => Except.ok (l, r)
      | none => Except.error "KeyError") labs with
  | ok rows =>
    rw [hm, ok_bind] at h
    cases h
    exact ⟨rfl, rfl⟩
  | error e =>
    rw [hm, error_bind] at h
    cases h

theorem getCol_of_ok (t : DFrame) (c : String) (s : List (Value × Value))
    (h : t.getCol c = .ok s) : c ∈ t.cols := by
  unfold DFrame.getCol at h
  cases hq : colIdx? t.cols c with
  | some i =>
    rw [← colIdx?_isSome_iff, hq]
    rfl
  | none => rw [hq] at h; cases h

theorem joinRelCols_cols (d : DataPack) (labs : List Value) :
    ∀ (cs : List String) (acc g : DFrame),
      joinRelCols d labs cs acc = .ok g → g.cols = acc.cols ++ nonIdCols cs := by
  intro cs
  induction cs with
  | nil =>
    intro acc g h
    cases h
    simp [joinRelCols, nonIdCols]
  | cons c cs ih =>
    intro acc g h
    by_cases hskip : c = "id_left" ∨ c = "id_right"
    · rw [show joinRelCols d labs (c :: cs) acc = joinRelCols d labs cs acc from by
        simp [joinRelCols, hskip]] at h
      rw [ih acc g h]
      rcases hskip with h' | h' <;> simp [nonIdCols, h']
    · rw [show joinRelCols d labs (c :: cs) acc = (do
          let s ← d.relation.getCol c
          let sel ← seriesSel s labs
          joinRelCols d labs cs
            (acc.join ⟨"", [c], enumFromV 0 (sel.map (fun p => [p.2]))⟩)) from by
        simp [joinRelCols, hskip]] at h
      cases hcol : d.relation.getCol c with
      | error e => rw [hcol, error_bind] at h; cases h
      | ok s =>
        rw [hcol, ok_bind] at h
        cases hsel : seriesSel s labs with
        | error e => rw [hsel, error_bind] at h; cases h
        | ok sel =>
          rw [hsel, ok_bind] at h
          have := ih _ g h
          rw [this]
          have hnon : nonIdCols (c :: cs) = c :: nonIdCols cs := by
            have hsk := hskip
            push_neg at hsk
            simp [nonIdCols, List.filter_cons, hsk.1, hsk.2]
          rw [hnon]
          show (acc.cols ++ [c]) ++ nonIdCols cs = acc.cols ++ c :: nonIdCols cs
          simp

theorem frameGetItem_cols (d : DataPack) (index : PyIndex) (g : DFrame)
    (h : d.frameGetItem index = .ok g) : g.cols = frameCols d := by
  unfold DataPack.frameGetItem at h
  cases h1 : d.relation.getCol "id_left" with
  | error e => rw [h1, error_bind] at h; cases h
  | ok sL =>
  rw [h1, ok_bind] at h
  cases h2 : seriesSel sL ((convert_to_list_index index d.len).map Value.int) with
  | error e => rw [h2, error_bind] at h; cases h
  | ok idsL =>
  rw [h2, ok_bind] at h
  cases h3 : d.left.loc (idsL.map Prod.snd) with
  | error e => rw [h3, error_bind] at h; cases h
  | ok left0 =>
  rw [h3, ok_bind] at h
  cases h4 : d.relation.getCol "id_right" with
  | error e => rw [h4, error_bind] at h; cases h
  | ok sR =>
  rw [h4, ok_bind] at h
  cases h5 : seriesSel sR ((convert_to_list_index index d.len).map Value.int) with
  | error e => rw [h5, error_bind] at h; cases h
  | ok idsR =>
  rw [h5, ok_bind] at h
  cases h6 : d.right.loc (idsR.map Prod.snd) with
  | error e => rw [h6, error_bind] at h; cases h
  | ok right0 =>
  rw [h6, ok_bind] at h
  have hcols := joinRelCols_cols d _ d.relation.cols _ g h
  rw [hcols]
  obtain ⟨hlc, hln⟩ := loc_cols d.left _ left0 h3
  obtain ⟨hrc, hrn⟩ := loc_cols d.right _ right0 h6
  show (left0.resetIndexKeep.cols ++ right0.resetIndexKeep.cols) ++
    nonIdCols d.relation.cols = frameCols d
  unfold DFrame.resetIndexKeep
  simp only [hlc, hln, hrc, hrn]
  unfold frameCols
  simp

/-- The relation table after `drop(columns='label')`. -/
def dropLabelRel (t : DFrame) : DFrame :=
  ⟨t.idxName, t.cols.filter (fun x => decide (x ≠ "label")),
    t.rows.map (fun p =>
      (p.1, ((t.cols.zip p.2).filter (fun q => decide (q.1 ≠ "label"))).map Prod.snd))⟩

theorem dropCol_label_ok (t : DFrame) (h : "label" ∈ t.cols) :
    t.dropCol "label" = .ok (dropLabelRel t) := by
  unfold DFrame.dropCol dropLabelRel
  rw [if_pos h]

theorem dropCol_label_err (t : DFrame) (h : "label" ∉ t.cols) :
    t.dropCol "label" = .error "KeyError" := by
  unfold DFrame.dropCol
  rw [if_neg h]

theorem dropLabelCore_ok (d : DataPack) (h : d.has_label) :
    dropLabelCore d = .ok ⟨dropLabelRel d.relation, d.left, d.right⟩ := by
  unfold dropLabelCore
  rw [dropCol_label_ok d.relation h, ok_bind]
  rfl

theorem dropLabelCore_err (d : DataPack) (h : ¬d.has_label) :
    dropLabelCore d = .error "KeyError" := by
  unfold dropLabelCore
  rw [dropCol_label_err d.relation h, error_bind]

theorem label_not_mem_dropLabelRel (t : DFrame) :
    "label" ∉ (dropLabelRel t).cols := by
  unfold dropLabelRel
  intro h
  have := List.of_mem_filter h
  simp at this

theorem copy_eq (d : DataPack) : d.copy = d := rfl

/-- The two-row example data pack from the specification's concrete
scenario (left = queries, right = documents, one label column). -/
def EXleft : DFrame :=
  ⟨"id_left", ["text_left"],
    [(.str "qid1", [.str "query 1"]), (.str "qid2", [.str "query 2"])]⟩

/-- Right entity table of the example. -/
def EXright : DFrame :=
  ⟨"id_right", ["text_right"],
    [(.str "did1", [.str "document 1"]), (.str "did2", [.str "document 2"])]⟩

/-- Relation table of the example. -/
def EXrel : DFrame :=
  ⟨"", ["id_left", "id_right", "label"],
    enumFromV 0 [[.str "qid1", .str "did1", .int 1],
                 [.str "qid2", .str "did2", .int 1]]⟩

/-- The example data pack. -/
def EX : DataPack := ⟨EXrel, EXleft, EXright⟩

/-! ## Claim theorems -/

/-- C1: for every pack satisfying referential integrity (with a standard
zero-based relation index and the two identifier columns present) and every
valid position sequence `idx`, the frame view's slice at `idx` succeeds and
produces exactly one row per requested position, in the requested order
(fresh contiguous output index), each row being the matched left entity
(identifier first), then the matched right entity, then the non-identifier
relation cells, under the column list `frameCols`; the full frame has
`d.len` rows; and on the concrete two-row example the full frame is the
expected two-row table with columns
`[id_left, text_left, id_right, text_right, label]` and row 0
`(qid1, "query 1", did1, "document 1", 1)`. -/
theorem C1_frame_view (d : DataPack) (idx : List Int)
    (hstd : d.relation.stdIndex)
    (hL : "id_left" ∈ d.relation.cols) (hR : "id_right" ∈ d.relation.cols)
    (hidx : validIdx idx d.len) (hri : RI d) :
    d.frameGetItem (.list idx) =
      .ok ⟨"", frameCols d, enumFromV 0 (idx.map (frameRowAt d))⟩ ∧
    (∀ g, (DataPack.frame d).call = .ok g → g.rows.length = d.len) ∧
    (DataPack.frame EX).call =
      .ok ⟨"", ["id_left", "text_left", "id_right", "text_right", "label"],
        enumFromV 0 [[.str "qid1", .str "query 1", .str "did1", .str "document 1", .int 1],
                     [.str "qid2", .str "query 2", .str "did2", .str "document 2", .int 1]]⟩ := by
  refine ⟨frameGetItem_spec d (.list idx) idx rfl hstd hL hR hidx hri, ?_, by rfl⟩
  have hvalid : validIdx ((List.range d.len).map Int.ofNat) d.len := by
    intro i hi
    obtain ⟨k, hk, rfl⟩ := List.mem_map.mp hi
    have := List.mem_range.mp hk
    constructor
    · exact Int.ofNat_nonneg k
    · rw [show Int.ofNat k = (k : Int) from rfl]
      exact_mod_cast this
  have hfull := frameGetItem_spec d (.slice none none none)
    ((List.range d.len).map Int.ofNat)
    (convert_default_slice d.len) hstd hL hR hvalid hri
  intro g hg
  rw [show (DataPack.frame d).call = d.frameGetItem (.slice none none none) from rfl,
    hfull] at hg
  cases hg
  simp [length_enumFromV]

/-- C1 witness: the hypotheses hold for the concrete example pack with
`idx = [0, 1]`, and the theorem applies there. -/
theorem C1_frame_view_witness :
    (EX.relation.stdIndex ∧ "id_left" ∈ EX.relation.cols ∧
      "id_right" ∈ EX.relation.cols ∧ validIdx [0, 1] EX.len ∧ RI EX) ∧
    (EX.frameGetItem (.list [0, 1]) =
      .ok ⟨"", frameCols EX, enumFromV 0 ([0, 1].map (frameRowAt EX))⟩) :=
  ⟨⟨by decide, by decide, by decide, by decide, by decide⟩,
    (C1_frame_view EX [0, 1] (by decide) (by decide) (by decide) (by decide)
      (by decide)).1⟩

/-- C2: for every pack (standard index, identifier columns present,
referential integrity) and every valid position sequence, `__getitem__`
returns a new pack whose relation holds the selected rows in the requested
order under a fresh contiguous index, whose left and right tables are
restricted to the unique referenced identifiers in first-occurrence order
(with their original rows), and whose length is the number of requested
positions. -/
theorem C2_getitem_subset (d : DataPack) (index : PyIndex) (idx : List Int)
    (hcv : convert_to_list_index index d.len = idx)
    (hstd : d.relation.stdIndex)
    (hL : "id_left" ∈ d.relation.cols) (hR : "id_right" ∈ d.relation.cols)
    (hidx : validIdx idx d.len) (hri : RI d) :
    d.getItem index = .ok
      ⟨⟨d.relation.idxName, d.relation.cols, enumFromV 0 (idx.map (relRowAt d))⟩,
        ⟨d.left.idxName, d.left.cols, (uniqueFirst (idx.map (leftIdAt d))).map
          (fun l => (l, (d.left.locRow l).getD []))⟩,
        ⟨d.right.idxName, d.right.cols, (uniqueFirst (idx.map (rightIdAt d))).map
          (fun l => (l, (d.right.locRow l).getD []))⟩⟩ ∧
    (∀ e, d.getItem index = .ok e → e.len = idx.length) := by
  have hmain := getItem_spec d index idx hcv hstd hL hR hidx hri
  refine ⟨hmain, ?_⟩
  intro e he
  rw [hmain] at he
  cases he
  simp [DataPack.len, length_enumFromV]

/-- C2 witness: the theorem applied to the example pack at the reversed
position list `[1, 0]`. -/
theorem C2_getitem_subset_witness :
    (EX.relation.stdIndex ∧ validIdx [1, 0] EX.len ∧ RI EX) ∧
    (EX.getItem (.list [1, 0]) = .ok
      ⟨⟨EX.relation.idxName, EX.relation.cols,
          enumFromV 0 ([1, 0].map (relRowAt EX))⟩,
        ⟨EX.left.idxName, EX.left.cols, (uniqueFirst ([1, 0].map (leftIdAt EX))).map
          (fun l => (l, (EX.left.locRow l).getD []))⟩,
        ⟨EX.right.idxName, EX.right.cols, (uniqueFirst ([1, 0].map (rightIdAt EX))).map
          (fun l => (l, (EX.right.locRow l).getD []))⟩⟩) :=
  ⟨⟨by decide, by decide, by decide⟩,
    (C2_getitem_subset EX (.list [1, 0]) [1, 0] rfl (by decide) (by decide)
      (by decide) (by decide) (by decide)).1⟩

/-- C3: referential integrity is preserved by subsetting — for every pack
satisfying the invariant and every valid position sequence, the subset pack
again satisfies it, and its entity tables contain exactly the identifiers
still referenced by its relation rows. -/
theorem C3_subset_preserves_integrity (d : DataPack) (index : PyIndex) (idx : List Int)
    (hcv : convert_to_list_index index d.len = idx)
    (hstd : d.relation.stdIndex)
    (hL : "id_left" ∈ d.relation.cols) (hR : "id_right" ∈ d.relation.cols)
    (hidx : validIdx idx d.len) (hri : RI d) :
    ∀ e, d.getItem index = .ok e →
      RI e ∧
      (∀ v, v ∈ e.left.keys ↔ ∃ r ∈ e.relation.rows,
        r.2.getD (colPosL e.relation.cols "id_left") (Value.int 0) = v) ∧
      (∀ v, v ∈ e.right.keys ↔ ∃ r ∈ e.relation.rows,
        r.2.getD (colPosL e.relation.cols "id_right") (Value.int 0) = v) := by
  intro e he
  rw [getItem_spec d index idx hcv hstd hL hR hidx hri] at he
  cases he
  have hkeysL : (DFrame.keys ⟨d.left.idxName, d.left.cols,
      (uniqueFirst (idx.map (leftIdAt d))).map
        (fun l => (l, (d.left.locRow l).getD []))⟩) =
      uniqueFirst (idx.map (leftIdAt d)) := by
    unfold DFrame.keys
    exact map_fst_pair_map _ _
  have hkeysR : (DFrame.keys ⟨d.right.idxName, d.right.cols,
      (uniqueFirst (idx.map (rightIdAt d))).map
        (fun l => (l, (d.right.locRow l).getD []))⟩) =
      uniqueFirst (idx.map (rightIdAt d)) := by
    unfold DFrame.keys
    exact map_fst_pair_map _ _
  have hcellL : ∀ r ∈ enumFromV 0 (idx.map (relRowAt d)),
      ∃ i ∈ idx, r.2.getD (colPosL d.relation.cols "id_left") (Value.int 0) =
        leftIdAt d i ∧ r.2 = relRowAt d i := by
    intro r hr
    have := snd_mem_of_mem_enumFromV 0 _ hr
    obtain ⟨i, hi, hri2⟩ := List.mem_map.mp this
    exact ⟨i, hi, by rw [← hri2]; rfl, hri2.symm⟩
  have hcellR : ∀ r ∈ enumFromV 0 (idx.map (relRowAt d)),
      ∃ i ∈ idx, r.2.getD (colPosL d.relation.cols "id_right") (Value.int 0) =
        rightIdAt d i ∧ r.2 = relRowAt d i := by
    intro r hr
    have := snd_mem_of_mem_enumFromV 0 _ hr
    obtain ⟨i, hi, hri2⟩ := List.mem_map.mp this
    exact ⟨i, hi, by rw [← hri2]; rfl, hri2.symm⟩
  refine ⟨⟨?_, ?_⟩, ?_, ?_⟩
  · intro r hr
    obtain ⟨i, hi, hcell, _⟩ := hcellL r hr
    rw [show (DFrame.keys ⟨d.left.idxName, d.left.cols,
      (uniqueFirst (idx.map (leftIdAt d))).map
        (fun l => (l, (d.left.locRow l).getD []))⟩) =
      uniqueFirst (idx.map (leftIdAt d)) from hkeysL]
    rw [mem_uniqueFirst]
    rw [show r.2.getD (colPosL d.relation.cols "id_left") (Value.int 0) =
      leftIdAt d i from hcell]
    exact List.mem_map_of_mem _ hi
  · intro r hr
    obtain ⟨i, hi, hcell, _⟩ := hcellR r hr
    rw [show (DFrame.keys ⟨d.right.idxName, d.right.cols,
      (uniqueFirst (idx.map (rightIdAt d))).map
        (fun l => (l, (d.right.locRow l).getD []))⟩) =
      uniqueFirst (idx.map (rightIdAt d)) from hkeysR]
    rw [mem_uniqueFirst]
    rw [show r.2.getD (colPosL d.relation.cols "id_right") (Value.int 0) =
      rightIdAt d i from hcell]
    exact List.mem_map_of_mem _ hi
  · intro v
    rw [show (DFrame.keys ⟨d.left.idxName, d.left.cols,
      (uniqueFirst (idx.map (leftIdAt d))).map
        (fun l => (l, (d.left.locRow l).getD []))⟩) =
      uniqueFirst (idx.map (leftIdAt d)) from hkeysL, mem_uniqueFirst]
    constructor
    · intro hv
      obtain ⟨i, hi, rfl⟩ := List.mem_map.mp hv
      obtain ⟨lab, hlab⟩ := mem_enumFromV_of_mem 0 (idx.map (relRowAt d))
        (List.mem_map_of_mem (relRowAt d) hi)
      exact ⟨(lab, relRowAt d i), hlab, rfl⟩
    · rintro ⟨r, hr, rfl⟩
      obtain ⟨i, hi, hcell, _⟩ := hcellL r hr
      rw [hcell]
      exact List.mem_map_of_mem _ hi
  · intro v
    rw [show (DFrame.keys ⟨d.right.idxName, d.right.cols,
      (uniqueFirst (idx.map (rightIdAt d))).map
        (fun l => (l, (d.right.locRow l).getD []))⟩) =
      uniqueFirst (idx.map (rightIdAt d)) from hkeysR, mem_uniqueFirst]
    constructor
    · intro hv
      obtain ⟨i, hi, rfl⟩ := List.mem_map.mp hv
      obtain ⟨lab, hlab⟩ := mem_enumFromV_of_mem 0 (idx.map (relRowAt d))
        (List.mem_map_of_mem (relRowAt d) hi)
      exact ⟨(lab, relRowAt d i), hlab, rfl⟩
    · rintro ⟨r, hr, rfl⟩
      obtain ⟨i, hi, hcell, _⟩ := hcellR r hr
      rw [hcell]
      exact List.mem_map_of_mem _ hi

/-- C3 witness: the subset invariant checked on the example pack at `[1]`. -/
theorem C3_subset_preserves_integrity_witness :
    (RI EX ∧ validIdx [1] EX.len) ∧
    ∀ e, EX.getItem (.list [1]) = .ok e → RI e :=
  ⟨⟨by decide, by decide⟩, fun e he =>
    (C3_subset_preserves_integrity EX (.list [1]) [1] rfl (by decide) (by decide)
      (by decide) (by decide) (by decide) e he).1⟩

/-- C4: a frame view holds no state beyond a reference to its pack —
slicing a view is literally a recomputation from the pack it references
(so every access reflects the pack's content at the moment of access), and
after `drop_label(inplace=True)` the receiver's previously created view
computes a full frame with no `label` column. -/
theorem C4_view_stateless (d : DataPack) (hl : d.has_label)
    (hnl : "label" ∉ d.left.cols) (hnr : "label" ∉ d.right.cols)
    (hnil : d.left.idxName ≠ "label") (hnir : d.right.idxName ≠ "label") :
    (∀ (v : DataPackFrameView) (i : PyIndex),
      v.getItem i = v.data_pack.frameGetItem i) ∧
    (d.drop_label true).2 = .ok none ∧
    (∀ g, (DataPack.frame (d.drop_label true).1).call = .ok g →
      "label" ∉ g.cols) := by
  have h2 : d.drop_label true =
      (⟨dropLabelRel d.relation, d.left, d.right⟩, .ok none) := by
    unfold DataPack.drop_label runOptionalInplace
    rw [show (if (true : Bool) = true then d else d.copy) = d from rfl]
    rw [dropLabelCore_ok d hl]
    rfl
  refine ⟨fun v i => rfl, by rw [h2], ?_⟩
  intro g hg
  have hcols := frameGetItem_cols ((d.drop_label true).1) (.slice none none none) g hg
  rw [hcols, show (d.drop_label true).1 =
    (⟨dropLabelRel d.relation, d.left, d.right⟩ : DataPack) from by rw [h2]]
  unfold frameCols
  intro hmem
  rcases List.mem_append.mp hmem with h12 | h3
  · rcases List.mem_cons.mp h12 with h' | h''
    · exact hnil h'.symm
    · rcases List.mem_append.mp h'' with h' | h''
      · exact hnl h'
      · rcases List.mem_cons.mp h'' with h' | h'
        · exact hnir h'.symm
        · exact hnr h'
  · exact label_not_mem_dropLabelRel d.relation (List.mem_of_mem_filter h3)

/-- C4 witness: the theorem applied to the example pack; its in-place
`drop_label` succeeds and returns nothing. -/
theorem C4_view_stateless_witness :
    (EX.has_label ∧ "label" ∉ EX.left.cols ∧ "label" ∉ EX.right.cols) ∧
    (EX.drop_label true).2 = .ok none :=
  ⟨⟨by decide, by decide, by decide⟩,
    (C4_view_stateless EX (by decide) (by decide) (by decide) (by decide)
      (by decide)).2.1⟩

/-- C6: `shuffle(inplace=False)` leaves the receiver untouched and returns
a pack whose relation holds the same rows as a multiset, with the row index
reset to a contiguous zero-based ordering, length unchanged, columns
unchanged, and the entity tables equal to the receiver's; with
`inplace=True` the receiver becomes the shuffled pack and nothing is
returned.  The permutation drawn by `sample(frac=1)` is the explicit
`sampled` argument. -/
theorem C6_shuffle (d : DataPack) (sampled : List (Value × List Value))
    (hperm : sampled.Perm d.relation.rows) :
    (d.shuffle sampled false).1 = d ∧
    (∃ e, (d.shuffle sampled false).2 = .ok (some e) ∧
      e.relation.rows = enumFromV 0 (sampled.map Prod.snd) ∧
      (e.relation.rows.map Prod.snd).Perm (d.relation.rows.map Prod.snd) ∧
      e.len = d.len ∧ e.relation.cols = d.relation.cols ∧
      e.left = d.left ∧ e.right = d.right) ∧
    d.shuffle sampled true = (shuffleCore sampled d, .ok none) := by
  refine ⟨rfl, ⟨shuffleCore sampled d.copy, rfl, rfl, ?_, ?_, rfl, rfl, rfl⟩, rfl⟩
  · rw [show (shuffleCore sampled d.copy).relation.rows =
      enumFromV 0 (sampled.map Prod.snd) from rfl]
    rw [map_snd_enumFromV]
    exact hperm.map Prod.snd
  · show (enumFromV 0 (sampled.map Prod.snd)).length = d.relation.rows.length
    rw [length_enumFromV, List.length_map]
    exact hperm.length_eq

/-- C6 witness: the example pack shuffled with the reversing permutation. -/
theorem C6_shuffle_witness :
    (EXrel.rows.reverse.Perm EX.relation.rows) ∧
    (EX.shuffle EXrel.rows.reverse false).1 = EX :=
  ⟨by decide, (C6_shuffle EX EXrel.rows.reverse (by decide)).1⟩

/-- C7: on a pack with a label column `drop_label` succeeds, yielding a
pack without the column and with the entity tables unchanged; on a pack
without one it raises a missing-column key error and leaves the receiver
unchanged (for either value of `inplace`), so a second `drop_label` in
sequence fails. -/
theorem C7_drop_label (d : DataPack) (hl : d.has_label) :
    (∃ e, d.drop_label false = (d, .ok (some e)) ∧ ¬e.has_label ∧
      e.left = d.left ∧ e.right = d.right ∧
      e.drop_label false = (e, .error "KeyError") ∧
      e.drop_label true = (e, .error "KeyError")) ∧
    (∀ d' : DataPack, ¬d'.has_label →
      d'.drop_label false = (d', .error "KeyError") ∧
      d'.drop_label true = (d', .error "KeyError")) := by
  have herr : ∀ d' : DataPack, ¬d'.has_label →
      d'.drop_label false = (d', .error "KeyError") ∧
      d'.drop_label true = (d', .error "KeyError") := by
    intro d' hnl
    constructor
    · unfold DataPack.drop_label runOptionalInplace
      rw [show (if (false : Bool) = true then d' else d'.copy) = d' from rfl]
      rw [dropLabelCore_err d' hnl]
    · unfold DataPack.drop_label runOptionalInplace
      rw [show (if (true : Bool) = true then d' else d'.copy) = d' from rfl]
      rw [dropLabelCore_err d' hnl]
  have hnolabel : ¬(⟨dropLabelRel d.relation, d.left, d.right⟩ : DataPack).has_label :=
    label_not_mem_dropLabelRel d.relation
  refine ⟨⟨⟨dropLabelRel d.relation, d.left, d.right⟩, ?_, hnolabel, rfl, rfl,
    (herr _ hnolabel).1, (herr _ hnolabel).2⟩, herr⟩
  unfold DataPack.drop_label runOptionalInplace
  rw [show (if (false : Bool) = true then d else d.copy) = d from rfl]
  rw [dropLabelCore_ok d hl]
  rfl

/-- C7 witness: the example pack has a label; its `drop_label` hypotheses
hold and the second conjunct applies to the already-dropped pack. -/
theorem C7_drop_label_witness :
    EX.has_label ∧
    (⟨dropLabelRel EX.relation, EX.left, EX.right⟩ : DataPack).drop_label false =
      (⟨dropLabelRel EX.relation, EX.left, EX.right⟩, .error "KeyError") :=
  ⟨by decide,
    ((C7_drop_label EX (by decide)).2 ⟨dropLabelRel EX.relation, EX.left, EX.right⟩
      (by decide)).1⟩

/-- C8: `apply_on_text` with a mode outside left/right/both raises the
configuration error before touching any table: the receiver is returned
unchanged for either value of `inplace`, for every function and rename
argument. -/
theorem C8_invalid_mode (d : DataPack) (func : Value → Value) (mode : String)
    (rename : RenameArg) (inplace : Bool)
    (hm : mode ≠ "left" ∧ mode ≠ "right" ∧ mode ≠ "both") :
    d.apply_on_text func mode rename inplace =
      (d, .error "ValueError: mode must be one of left right both") := by
  unfold DataPack.apply_on_text runOptionalInplace applyOnTextCore
  rw [copy_eq]
  rw [if_neg (by simpa using hm.2.2), if_neg (by simpa using hm.1),
    if_neg (by simpa using hm.2.1)]

/-- C8 witness: the error on the example pack with mode `up`. -/
theorem C8_invalid_mode_witness :
    ("up" ≠ "left" ∧ "up" ≠ "right" ∧ "up" ≠ "both") ∧
    EX.apply_on_text (fun v => v) "up" RenameArg.noRename false =
      (EX, .error "ValueError: mode must be one of left right both") :=
  ⟨⟨by decide, by decide, by decide⟩,
    C8_invalid_mode EX (fun v => v) "up" RenameArg.noRename false
      ⟨by decide, by decide, by decide⟩⟩

/-- C9: saving over an existing data file raises a file-exists error and
leaves the file system unchanged; saving into a directory without the data
file succeeds, creating the directory when absent and writing the file;
loading a directory just saved returns the saved pack.  The file system and
the `dill` serialisation are modelled (they are external to this module). -/
theorem C9_save_load (d : DataPack) (dirpath : String) (fs : FileSys) :
    ((fs.lookup (joinPath dirpath DATA_FILENAME)).isSome →
      d.save dirpath fs = (fs, .error "FileExistsError")) ∧
    ((fs.lookup (joinPath dirpath DATA_FILENAME)).isSome = false →
      (d.save dirpath fs).2 = .ok () ∧
      (d.save dirpath fs).1.lookup (joinPath dirpath DATA_FILENAME) = some d ∧
      (dirpath ∉ fs.dirs → dirpath ∈ (d.save dirpath fs).1.dirs)) ∧
    ((fs.lookup (joinPath dirpath DATA_FILENAME)).isSome = false →
      load_data_pack dirpath ((d.save dirpath fs).1) = .ok d) := by
  have hwrote : (fs.lookup (joinPath dirpath DATA_FILENAME)).isSome = false →
      (d.save dirpath fs).1.lookup (joinPath dirpath DATA_FILENAME) = some d := by
    intro h
    unfold DataPack.save
    rw [if_neg (by simp [h])]
    by_cases hd : dirpath ∈ fs.dirs
    · rw [if_pos hd]
      unfold FileSys.lookup
      rw [List.find?_cons_of_pos _ (by simp)]
      rfl
    · rw [if_neg hd]
      unfold FileSys.lookup
      rw [List.find?_cons_of_pos _ (by simp)]
      rfl
  refine ⟨?_, ?_, ?_⟩
  · intro h
    unfold DataPack.save
    rw [if_pos h]
  · intro h
    refine ⟨?_, hwrote h, ?_⟩
    · unfold DataPack.save
      rw [if_neg (by simp [h])]
      by_cases hd : dirpath ∈ fs.dirs
      · rw [if_pos hd]
      · rw [if_neg hd]
    · intro hnm
      unfold DataPack.save
      rw [if_neg (by simp [h]), if_neg hnm]
      exact List.mem_cons_self _ _
  · intro h
    unfold load_data_pack
    rw [hwrote h]

/-- C9 witness: a round trip through an empty file system with the example
pack. -/
theorem C9_save_load_witness :
    ((FileSys.mk [] []).lookup (joinPath "dir" DATA_FILENAME)).isSome = false ∧
    load_data_pack "dir" ((EX.save "dir" (FileSys.mk [] [])).1) = .ok EX :=
  ⟨by decide, (C9_save_load EX "dir" (FileSys.mk [] [])).2.2 (by decide)⟩

/-- C10: with the standard contiguous zero-based relation index,
`dp[-1]` on a non-empty pack raises a key error — the integer is wrapped
into a one-element list and resolved by label-based lookup, so Python-style
negative integer indexing is unsupported — whereas a negative bound inside
a slice is resolved relative to the length by the slice normalisation. -/
theorem C10_negative_index (d : DataPack) (hstd : d.relation.stdIndex)
    (hlen : 0 < d.len) :
    d.getItem (.int (-1)) = .error "KeyError" ∧
    convert_to_list_index (.int (-1)) d.len = [-1] ∧
    convert_to_list_index (.slice (some (-1)) none none) d.len =
      [(d.len : Int) - 1] := by
  obtain ⟨vs, hrel, hvs⟩ :
      ∃ vs, d.relation.rows = enumFromV 0 vs ∧ vs = d.relation.rows.map Prod.snd :=
    ⟨_, hstd, rfl⟩
  refine ⟨?_, rfl, ?_⟩
  · have hfind : d.relation.locRow (Value.int (-1)) = none := by
      unfold DFrame.locRow
      rw [hrel, find?_enumFromV_none 0 vs (-1) (by left; norm_num)]
      rfl
    have hloc : d.relation.loc ([(-1 : Int)].map Value.int) =
        .error "KeyError" := by
      unfold DFrame.loc
      rw [show mapME (fun l =>
          match d.relation.locRow l with
          | some r => Except.ok (l, r)
          | none => (Except.error "KeyError" : Except String (Value × List Value)))
          ([(-1 : Int)].map Value.int) =
          (Except.error "KeyError" : Except String (List (Value × List Value))) from by
        simp only [List.map_cons, List.map_nil, mapME, hfind]
        rfl]
      rfl
    unfold DataPack.getItem
    rw [show convert_to_list_index (.int (-1)) d.len = [(-1 : Int)] from rfl]
    rw [hloc, error_bind]
  · unfold convert_to_list_index sliceIndices
    norm_num
    rw [show max (-1 + (d.len : Int)) 0 = (d.len : Int) - 1 from by omega]
    rw [show ((d.len : Int) - ((d.len : Int) - 1)) = 1 from by ring]
    norm_num
    rw [show List.range 1 = [0] from rfl]
    simp

/-- C10 witness: `EX[-1]` errors while the trailing slice index resolves to
position 1. -/
theorem C10_negative_index_witness :
    (EX.relation.stdIndex ∧ 0 < EX.len) ∧
    EX.getItem (.int (-1)) = .error "KeyError" :=
  ⟨⟨by decide, by decide⟩, (C10_negative_index EX (by decide) (by decide)).1⟩

theorem range_validIdx (n : Nat) : validIdx ((List.range n).map Int.ofNat) n := by
  intro i hi
  obtain ⟨k, hk, rfl⟩ := List.mem_map.mp hi
  have := List.mem_range.mp hk
  constructor
  · exact Int.ofNat_nonneg k
  · rw [show Int.ofNat k = (k : Int) from rfl]
    exact_mod_cast this

theorem map_fst_pair_mapS (f : String → List Value) (L : List String) :
    ((L.map (fun c => (c, f c))).map Prod.fst) = L := by
  induction L with
  | nil => rfl
  | cons a L ih => simp [ih]

theorem length_filter_ne_label (L : List String) :
    (L.filter (fun x => decide (x ≠ "label"))).length + L.count "label" = L.length := by
  induction L with
  | nil => rfl
  | cons a L ih =>
    by_cases ha : a = "label"
    · subst ha
      rw [List.filter_cons_of_neg (by simp), List.count_cons_self,
        List.length_cons]
      omega
    · rw [List.filter_cons_of_pos (by simpa using ha),
        List.count_cons_of_ne (fun he => ha he.symm), List.length_cons,
        List.length_cons]
      omega

theorem label_mem_frameCols (d : DataPack) (hl : d.has_label) :
    "label" ∈ frameCols d := by
  unfold frameCols
  apply List.mem_append.mpr
  right
  unfold nonIdCols
  exact List.mem_filter.mpr ⟨hl, by decide⟩

/-- C5: `unpack` splits the full joined frame: with a label column present
it returns the label values as a full-length array together with a mapping
from every non-label joined column name to its full-length value column;
without a label column the label result is absent and the mapping covers
the whole joined column set — which has one column fewer than the labeled
pack's joined columns, since dropping the label removes exactly that column
from the joined frame. -/
theorem C5_unpack (d : DataPack)
    (hstd : d.relation.stdIndex)
    (hL : "id_left" ∈ d.relation.cols) (hR : "id_right" ∈ d.relation.cols)
    (hri : RI d) :
    (d.has_label →
      ∃ x y, d.unpack = .ok (x, some y) ∧ y.length = d.len ∧
        x.map Prod.fst = (frameCols d).erase "label" ∧
        ∀ p ∈ x, p.2.length = d.len) ∧
    (¬d.has_label →
      ∃ x, d.unpack = .ok (x, none) ∧ x.map Prod.fst = frameCols d ∧
        ∀ p ∈ x, p.2.length = d.len) ∧
    (d.has_label → d.relation.cols.count "label" = 1 →
      ∀ e, (d.drop_label false).2 = .ok (some e) →
        (frameCols e).length + 1 = (frameCols d).length) := by
  have hfull := frameGetItem_spec d (.slice none none none)
    ((List.range d.len).map Int.ofNat) (convert_default_slice d.len) hstd hL hR
    (range_validIdx d.len) hri
  have hrows : (enumFromV 0 (((List.range d.len).map Int.ofNat).map
      (frameRowAt d))).length = d.len := by
    simp [length_enumFromV]
  refine ⟨?_, ?_, ?_⟩
  · intro hl
    have hmemF : "label" ∈ frameCols d := label_mem_frameCols d hl
    have hs := getCol_ok (⟨"", frameCols d, enumFromV 0
      (((List.range d.len).map Int.ofNat).map (frameRowAt d))⟩ : DFrame) "label" hmemF
    have hx : mapME (fun c => do
        let s ← DFrame.getCol (⟨"", frameCols d, enumFromV 0
          (((List.range d.len).map Int.ofNat).map (frameRowAt d))⟩ : DFrame) c
        pure (c, s.map Prod.snd)) ((frameCols d).erase "label") =
        .ok (((frameCols d).erase "label").map (fun c =>
          (c, ((enumFromV 0 (((List.range d.len).map Int.ofNat).map
            (frameRowAt d))).map (fun p =>
              (p.1, p.2.getD (colPosL (frameCols d) c) (Value.int 0)))).map
            Prod.snd))) := by
      apply mapME_ok
      intro c hc
      rw [getCol_ok _ c (List.mem_of_mem_erase hc), ok_bind]
      rfl
    refine ⟨((frameCols d).erase "label").map (fun c =>
        (c, ((enumFromV 0 (((List.range d.len).map Int.ofNat).map
          (frameRowAt d))).map (fun p =>
            (p.1, p.2.getD (colPosL (frameCols d) c) (Value.int 0)))).map
          Prod.snd)),
      ((enumFromV 0 (((List.range d.len).map Int.ofNat).map
        (frameRowAt d))).map (fun p =>
          (p.1, p.2.getD (colPosL (frameCols d) "label") (Value.int 0)))).map
        Prod.snd, ?_, ?_, ?_, ?_⟩
    · unfold DataPack.unpack
      rw [show (DataPack.frame d).call =
        d.frameGetItem (.slice none none none) from rfl]
      simp only [hfull, ok_bind, pureE_bind, if_pos hl, hs, hx]
      rfl
    · simp [length_enumFromV]
    · exact map_fst_pair_mapS _ _
    · intro p hp
      obtain ⟨c, hc, rfl⟩ := List.mem_map.mp hp
      simp [length_enumFromV]
  · intro hl
    have hx : mapME (fun c => do
        let s ← DFrame.getCol (⟨"", frameCols d, enumFromV 0
          (((List.range d.len).map Int.ofNat).map (frameRowAt d))⟩ : DFrame) c
        pure (c, s.map Prod.snd)) (frameCols d) =
        .ok ((frameCols d).map (fun c =>
          (c, ((enumFromV 0 (((List.range d.len).map Int.ofNat).map
            (frameRowAt d))).map (fun p =>
              (p.1, p.2.getD (colPosL (frameCols d) c) (Value.int 0)))).map
            Prod.snd))) := by
      apply mapME_ok
      intro c hc
      rw [getCol_ok _ c hc, ok_bind]
      rfl
    refine ⟨(frameCols d).map (fun c =>
        (c, ((enumFromV 0 (((List.range d.len).map Int.ofNat).map
          (frameRowAt d))).map (fun p =>
            (p.1, p.2.getD (colPosL (frameCols d) c) (Value.int 0)))).map
          Prod.snd)), ?_, ?_, ?_⟩
    · unfold DataPack.unpack
      rw [show (DataPack.frame d).call =
        d.frameGetItem (.slice none none none) from rfl]
      simp only [hfull, ok_bind, pureE_bind, if_neg hl, hx]
      rfl
    · exact map_fst_pair_mapS _ _
    · intro p hp
      obtain ⟨c, hc, rfl⟩ := List.mem_map.mp hp
      simp [length_enumFromV]
  · intro hl hcount e he
    have hdrop : d.drop_label false =
        (d, .ok (some ⟨dropLabelRel d.relation, d.left, d.right⟩)) := by
      unfold DataPack.drop_label runOptionalInplace
      rw [show (if (false : Bool) = true then d else d.copy) = d from rfl]
      rw [dropLabelCore_ok d hl]
      rfl
    rw [hdrop] at he
    cases he
    have hcomm : nonIdCols ((dropLabelRel d.relation).cols) =
        (nonIdCols d.relation.cols).filter (fun x => decide (x ≠ "label")) := by
      unfold dropLabelRel nonIdCols
      exact List.filter_comm _ _ _
    have hcnt : (nonIdCols d.relation.cols).count "label" = 1 := by
      unfold nonIdCols
      rw [List.count_filter (by decide)]
      exact hcount
    have hlen2 := length_filter_ne_label (nonIdCols d.relation.cols)
    rw [hcnt] at hlen2
    show ((d.left.idxName :: d.left.cols) ++ (d.right.idxName :: d.right.cols) ++
      nonIdCols ((dropLabelRel d.relation).cols)).length + 1 =
      ((d.left.idxName :: d.left.cols) ++ (d.right.idxName :: d.right.cols) ++
        nonIdCols d.relation.cols).length
    rw [hcomm]
    simp only [List.length_append, List.length_cons]
    omega

/-- C5 witness: the hypotheses hold on the example pack, and `unpack`
yields a label array there. -/
theorem C5_unpack_witness :
    (EX.relation.stdIndex ∧ RI EX ∧ EX.has_label) ∧
    (∃ x y, EX.unpack = .ok (x, some y) ∧ y.length = EX.len ∧
      x.map Prod.fst = (frameCols EX).erase "label" ∧
      ∀ p ∈ x, p.2.length = EX.len) :=
  ⟨⟨by decide, by decide, by decide⟩,
    (C5_unpack EX (by decide) (by decide) (by decide) (by decide)).1 (by decide)⟩
